import Mathlib

/-!
# STRAT Go SDK: a shallow embedding of `sdks/strat_sdk.go`

The embedding follows the Go source function by function.  Go functions that
return `(T, error)` are modelled as pairs `T × Option Error` (a `nil` error is
`none`), so that the value returned next to an error is visible.  The pieces of
the Go standard library the SDK calls (`json.Marshal`, `http.NewRequest`,
`http.Client.Do`, `io.ReadAll`, JSON decoding) are collected in an
environment record `Env` and stay abstract; everything the SDK itself decides is
defined here.  The two `regexp` patterns are embedded as regular expressions run
by a matcher, and `float64` arithmetic is IEEE-754 binary64 with rounding to
nearest, ties to even.
-/

set_option autoImplicit false

namespace StratSDK

/-! ## Data model -/

/-- Go `float64`: an IEEE-754 binary64 datum.  `fin neg m e` denotes
`(-1)^neg * m * 2^e`; the values produced by the arithmetic below are in
canonical form (`m < 2^53`, `-1074 ≤ e ≤ 971`, and `e = -1074` when
`m < 2^52`). -/
inductive Float64 where
  | nan
  | inf (neg : Bool)
  | fin (neg : Bool) (m : Nat) (e : Int)
  deriving DecidableEq, Repr

/-- Go's `0` of type `float64` (positive zero). -/
def Float64.zero : Float64 := .fin false 0 (-1074)

/-- Go `interface{}` value as produced by `encoding/json` when decoding into
an `interface{}`: `nil`, `bool`, `float64`, `string`, `[]interface{}` or
`map[string]interface{}` (the entries of the map, keys distinct). -/
inductive Value where
  | null
  | bool (b : Bool)
  | num (x : Float64)
  | str (s : String)
  | arr (xs : List Value)
  | obj (kvs : List (String × Value))

/-- Go `map[string]interface{}`; `none` is the `nil` map. -/
abbrev GoMap := Option (List (String × Value))

/-- Entry lookup in the entries of a Go map. -/
def lookupKey (key : String) : List (String × Value) → Option Value
  | [] => none
  | (k, v) :: rest => if k = key then some v else lookupKey key rest

/-- Go map indexing `m[key]` at type `interface{}`: the zero value `nil` when
the key is missing or the map is `nil`. -/
def GoMap.index (m : GoMap) (key : String) : Value :=
  match m with
  | none => .null
  | some kvs => (lookupKey key kvs).getD .null

/-- Type assertion `v.(string)`. -/
def Value.asString : Value → Option String
  | .str s => some s
  | _ => none

/-- Type assertion `v.(float64)`. -/
def Value.asFloat64 : Value → Option Float64
  | .num x => some x
  | _ => none

/-- Type assertion `v.([]interface{})`. -/
def Value.asSlice : Value → Option (List Value)
  | .arr xs => some xs
  | _ => none

/-- Type assertion `v.(map[string]interface{})`. -/
def Value.asMap : Value → Option (List (String × Value))
  | .obj kvs => some kvs
  | _ => none

/-- Cause reported by `json.Unmarshal`. -/
inductive UnmarshalError where
  /-- the decoder rejected the input, with its message: invalid JSON
  (`*json.SyntaxError`), or valid JSON holding a number outside the `float64`
  range (`*json.UnmarshalTypeError`) -/
  | invalid (msg : String)
  /-- valid JSON of the wrong kind for the target (`*json.UnmarshalTypeError`) -/
  | wrongType (kind : String)
  deriving DecidableEq, Repr

/-- Text of an unmarshal cause. -/
def UnmarshalError.text : UnmarshalError → String
  | .invalid msg => msg
  | .wrongType kind =>
      "json: cannot unmarshal " ++ kind ++ " into Go value of type map[string]interface \x7b\x7d"

/-- The errors built by the SDK, one constructor per `fmt.Errorf` call of the
source, holding the arguments of the call. -/
inductive Error where
  | marshalBody (cause : String)
  | createRequest (cause : String)
  | requestFailed (cause : String)
  | readResponse (cause : String)
  | api (status : Int) (msg : String)
  | unmarshalResponse (cause : UnmarshalError)
  | unexpectedResponseFormat
  | unexpectedBalanceFormat
  deriving DecidableEq, Repr

/-- Message of an error, as formatted by the `fmt.Errorf` call. -/
def Error.text : Error → String
  | .marshalBody cause => "failed to marshal request body: " ++ cause
  | .createRequest cause => "failed to create request: " ++ cause
  | .requestFailed cause => "request failed: " ++ cause
  | .readResponse cause => "failed to read response: " ++ cause
  | .api status msg => "API error (" ++ toString status ++ "): " ++ msg
  | .unmarshalResponse cause => "failed to unmarshal response: " ++ cause.text
  | .unexpectedResponseFormat => "unexpected response format"
  | .unexpectedBalanceFormat => "unexpected balance format"

/-- Go `http.Client`, reduced to the field the SDK sets. -/
structure HTTPClient where
  Timeout : Int
  deriving DecidableEq, Repr

/-- Client represents a STRAT SDK client. -/
structure Client where
  APIURL : String
  APIKey : String
  HTTPClient : HTTPClient
  deriving DecidableEq, Repr

/-- Config holds SDK configuration; `Timeout` is a `time.Duration`
(nanoseconds). -/
structure Config where
  APIURL : String
  APIKey : String
  Timeout : Int
  deriving DecidableEq, Repr

/-- Go `time.Second`, in nanoseconds. -/
def Second : Int := 1000000000

/-- An outgoing `http.Request`: method, URL, header entries and body bytes. -/
structure HTTPRequest where
  Method : String
  URL : String
  Header : List (String × String)
  Body : Option String
  deriving DecidableEq, Repr

/-- A received `http.Response`: the status code and what `io.ReadAll` gives
on its body (the bytes, or the cause of the read failure). -/
structure Response where
  StatusCode : Int
  Body : Except String String

/-- The standard-library operations the SDK calls. -/
structure Env (β : Type) where
  /-- Go `json.Marshal` on a request payload -/
  Marshal : β → Except String String
  /-- the error of `http.NewRequest` for a method and URL, if any -/
  NewRequestError : String → String → Option String
  /-- Go `HTTPClient.Do` under the timeout of the client -/
  Do : Int → HTTPRequest → Except String Response
  /-- decoding of a byte string into an `interface{}` value as `encoding/json`
  does it: an error for invalid JSON and for well-formed JSON that holds a
  number outside the `float64` range -/
  Decode : String → Except String Value

/-! ## Client construction -/

/-- NewClient creates a new STRAT SDK client.  The second component is the
caller's config after the call (the timeout default is written into it). -/
def NewClient (config : Option Config) : Client × Option Config :=
  let caller := config
  let config : Config :=
    match config with
    | none => { APIURL := "http://localhost:3000", APIKey := "", Timeout := 30 * Second }
    | some cfg => cfg
  let config : Config :=
    if config.Timeout = 0 then { config with Timeout := 30 * Second } else config
  ({ APIURL := config.APIURL, APIKey := config.APIKey,
     HTTPClient := { Timeout := config.Timeout } },
   caller.map fun _ => config)

/-! ## The request pipeline -/

/-- Go `Header.Set`: replace the entry of `key`, or add one. -/
def headerSet (key value : String) : List (String × String) → List (String × String)
  | [] => [(key, value)]
  | (k, v) :: rest => if k = key then (key, value) :: rest else (k, v) :: headerSet key value rest

/-- Go `Header.Get`-style lookup of an entry. -/
def headerGet (key : String) : List (String × String) → Option String
  | [] => none
  | (k, v) :: rest => if k = key then some v else headerGet key rest

/-- Go `http.NewRequest`: fails on an invalid method or URL, else a request
with an empty header (an empty method means GET). -/
def newRequest {β : Type} (env : Env β) (method url : String) (body : Option String) :
    Except String HTTPRequest :=
  match env.NewRequestError method url with
  | some cause => .error cause
  | none => .ok { Method := if method = "" then "GET" else method, URL := url,
                  Header := [], Body := body }

/-- Lines 55-74 of `Request`: serialise the payload, create the request and
set its headers. -/
def Client.buildRequest {β : Type} (env : Env β) (c : Client) (method endpoint : String)
    (body : Option β) : Except Error HTTPRequest :=
  let url := c.APIURL ++ endpoint
  let reqBody : Except String (Option String) :=
    match body with
    | none => .ok none
    | some b =>
      match env.Marshal b with
      | .error cause => .error cause
      | .ok jsonData => .ok (some jsonData)
  match reqBody with
  | .error cause => .error (.marshalBody cause)
  | .ok reqBody =>
    match newRequest env method url reqBody with
    | .error cause => .error (.createRequest cause)
    | .ok req =>
      let req := { req with Header := headerSet "Content-Type" "application/json" req.Header }
      let req :=
        if c.APIKey ≠ "" then
          { req with Header := headerSet "Authorization" ("Bearer " ++ c.APIKey) req.Header }
        else req
      .ok req

/-- Go `json.Unmarshal(data, &m)` for `m` a `nil` `map[string]interface{}`:
the error of the decoder when the input is invalid JSON or holds a number
outside the `float64` range, the map of a JSON object, the `nil` map (and
no error) for JSON `null`, a type error for any other JSON value. -/
def jsonUnmarshalMap {β : Type} (env : Env β) (data : String) : Except UnmarshalError GoMap :=
  match env.Decode data with
  | .error msg => .error (.invalid msg)
  | .ok (.obj kvs) => .ok (some kvs)
  | .ok .null => .ok none
  | .ok (.arr _) => .error (.wrongType "array")
  | .ok (.str _) => .error (.wrongType "string")
  | .ok (.num _) => .error (.wrongType "number")
  | .ok (.bool _) => .error (.wrongType "bool")

/-- Lines 87-102 of `Request`: classify a response by status code and decode
its body. -/
def classify {β : Type} (env : Env β) (statusCode : Int) (respBody : String) :
    GoMap × Option Error :=
  if statusCode ≥ 400 then
    match jsonUnmarshalMap env respBody with
    | .ok errorResp =>
      match (errorResp.index "error").asString with
      | some errMsg => (none, some (.api statusCode errMsg))
      | none => (none, some (.api statusCode respBody))
    | .error _ => (none, some (.api statusCode respBody))
  else
    match jsonUnmarshalMap env respBody with
    | .error cause => (none, some (.unmarshalResponse cause))
    | .ok result => (result, none)

/-- Request makes an HTTP request to the STRAT API. -/
def Client.Request {β : Type} (env : Env β) (c : Client) (method endpoint : String)
    (body : Option β) : GoMap × Option Error :=
  match c.buildRequest env method endpoint body with
  | .error e => (none, some e)
  | .ok req =>
    match env.Do c.HTTPClient.Timeout req with
    | .error cause => (none, some (.requestFailed cause))
    | .ok resp =>
      match resp.Body with
      | .error cause => (none, some (.readResponse cause))
      | .ok respBody => classify env resp.StatusCode respBody

/-! ## Regular expressions -/

/-- The fragment of Go `regexp` (RE2) syntax used by the SDK: the anchors
`^` and `$` (no multi-line flag: start and end of the text), a literal
character, a character class given by its ranges, concatenation, `r+` and
`r{n}`. -/
inductive Re where
  | bol
  | eol
  | lit (c : Char)
  | cls (ranges : List (Char × Char))
  | cat (r s : Re)
  | plus (r : Re)
  | rep (r : Re) (n : Nat)

/-- Membership of a character in a class given by inclusive ranges. -/
def inRanges (ranges : List (Char × Char)) (c : Char) : Bool :=
  ranges.any fun r => decide (r.1 ≤ c) && decide (c ≤ r.2)

/-- Sequencing of a matcher `n` times. -/
def repeatRun (f : Bool × List Char → List (Bool × List Char)) :
    Nat → Bool × List Char → List (Bool × List Char)
  | 0, st => [st]
  | n + 1, st => (f st).flatMap (repeatRun f n)

/-- One or more rounds of a matcher; a further round is only tried after a
round that consumed input, so `fuel` above the input length is enough. -/
def plusRun (f : Bool × List Char → List (Bool × List Char)) :
    Nat → Bool × List Char → List (Bool × List Char)
  | 0, _ => []
  | fuel + 1, st =>
    (f st).flatMap fun st' =>
      st' :: (if st'.2.length < st.2.length then plusRun f fuel st' else [])

/-- All ways `r` can match at a position.  A position is the flag "at the
start of the text" with the remaining input; the result lists the positions
after each match. -/
def Re.run : Re → Bool × List Char → List (Bool × List Char)
  | .bol, st => if st.1 then [st] else []
  | .eol, st => if st.2.isEmpty then [st] else []
  | .lit c, st =>
    match st.2 with
    | [] => []
    | x :: rest => if x = c then [(false, rest)] else []
  | .cls ranges, st =>
    match st.2 with
    | [] => []
    | x :: rest => if inRanges ranges x then [(false, rest)] else []
  | .cat r s, st => (r.run st).flatMap s.run
  | .plus r, st => plusRun r.run (st.2.length + 1) st
  | .rep r n, st => repeatRun r.run n st

/-- Unanchored search: does `r` match at the current position or at a later
one? -/
def Re.search (r : Re) : Bool → List Char → Bool
  | atStart, [] => !(r.run (atStart, [])).isEmpty
  | atStart, c :: cs => !(r.run (atStart, c :: cs)).isEmpty || r.search false cs

/-- Go `(*Regexp).MatchString`: does the text contain a match of the
pattern? -/
def Re.MatchString (r : Re) (s : String) : Bool :=
  r.search true s.toList

/-- The pattern `^\d+$` of `GetBlock`. -/
def blockIndexPattern : Re :=
  .cat .bol (.cat (.plus (.cls [('0', '9')])) .eol)

/-- The pattern `^0x[a-fA-F0-9]{40}$` of `IsValidAddress`. -/
def addressPattern : Re :=
  .cat .bol (.cat (.lit '0') (.cat (.lit 'x')
    (.cat (.rep (.cls [('a', 'f'), ('A', 'F'), ('0', '9')]) 40) .eol)))

/-! ## Endpoint adapters -/

/-- Lines 114-118 of `GetBlock`: the endpoint chosen for an identifier. -/
def blockEndpoint (identifier : String) : String :=
  let isIndex := blockIndexPattern.MatchString identifier
  let endpoint := "/api/blockchain/block/" ++ identifier
  if isIndex then "/api/blockchain/block-by-index/" ++ identifier else endpoint

/-- GetBlock retrieves a block by hash or index. -/
def Client.GetBlock {β : Type} (env : Env β) (c : Client) (identifier : String) :
    GoMap × Option Error :=
  c.Request env "GET" (blockEndpoint identifier) none

/-- GetLatestBlocks retrieves the latest blocks.  The returned slice is a
list (`nil` is the empty list). -/
def Client.GetLatestBlocks {β : Type} (env : Env β) (c : Client) (count : Int) :
    List (List (String × Value)) × Option Error :=
  match c.Request env "GET" ("/api/blockchain/blocks?limit=" ++ toString count) none with
  | (_, some err) => ([], some err)
  | (result, none) =>
    match (result.index "blocks").asSlice with
    | none => ([], some .unexpectedResponseFormat)
    | some blocks =>
      (blocks.foldl (fun typedBlocks block =>
          match block.asMap with
          | some b => typedBlocks ++ [b]
          | none => typedBlocks) [], none)

/-- GetTransactionHistory retrieves transaction history for an address. -/
def Client.GetTransactionHistory {β : Type} (env : Env β) (c : Client) (address : String)
    (limit offset : Int) : List (List (String × Value)) × Option Error :=
  let endpoint := "/api/transactions/history/" ++ address ++ "?limit=" ++ toString limit ++
    "&offset=" ++ toString offset
  match c.Request env "GET" endpoint none with
  | (_, some err) => ([], some err)
  | (result, none) =>
    match (result.index "transactions").asSlice with
    | none => ([], some .unexpectedResponseFormat)
    | some transactions =>
      (transactions.foldl (fun typedTxs tx =>
          match tx.asMap with
          | some t => typedTxs ++ [t]
          | none => typedTxs) [], none)

/-- GetBalance retrieves the balance of an address. -/
def Client.GetBalance {β : Type} (env : Env β) (c : Client) (address : String) :
    Float64 × Option Error :=
  match c.Request env "GET" ("/api/wallets/balance/" ++ address) none with
  | (_, some err) => (Float64.zero, some err)
  | (result, none) =>
    match (result.index "balance").asFloat64 with
    | none => (Float64.zero, some .unexpectedBalanceFormat)
    | some balance => (balance, none)

/-! ## Utilities -/

/-- IsValidAddress validates an address format. -/
def IsValidAddress (address : String) : Bool :=
  addressPattern.MatchString address

/-! ### Binary64 arithmetic -/

/-- Number of binary digits of `n`, by halving (`fuel` at least the number
of digits). -/
def bitLength : Nat → Nat → Nat
  | 0, _ => 0
  | fuel + 1, n => if n = 0 then 0 else bitLength fuel (n / 2) + 1

/-- The binary exponent `⌊log₂ (num / den)⌋` of a positive fraction. -/
def binaryExponent (num den : Nat) : Int :=
  let a : Int := bitLength num num
  let b : Int := bitLength den den
  -- the exponent is `a - b` or `a - b - 1`
  if den * 2 ^ (a - b).toNat ≤ num * 2 ^ (b - a).toNat then a - b else a - b - 1

/-- The integer nearest to `n / d`, a tie going to the even one. -/
def roundHalfEven (n d : Nat) : Nat :=
  let q := n / d
  let r := n % d
  if d < 2 * r ∨ (2 * r = d ∧ q % 2 = 1) then q + 1 else q

/-- IEEE-754 rounding to binary64, round-to-nearest ties-to-even, of the
non-negative rational `num / den` (`den > 0`), with the sign attached.
Results beyond the largest finite value become infinite, results below the
normal range are rounded on the subnormal grid `2^-1074`. -/
def roundNearestEven (neg : Bool) (num den : Nat) : Float64 :=
  if num = 0 then .fin neg 0 (-1074) else
  let e : Int := max (binaryExponent num den - 52) (-1074)
  -- the significand: `num / (den * 2^e)` rounded to an integer
  let m : Nat := roundHalfEven (num * 2 ^ (-e).toNat) (den * 2 ^ e.toNat)
  if m = 2 ^ 53 then
    if e + 1 > 971 then .inf neg else .fin neg (2 ^ 52) (e + 1)
  else if e > 971 then .inf neg else .fin neg m e

/-- Go `x * y` on `float64`: the IEEE-754 product. -/
def Float64.mul : Float64 → Float64 → Float64
  | .nan, _ => .nan
  | _, .nan => .nan
  | .inf s, .inf t => .inf (xor s t)
  | .inf s, .fin t m _ => if m = 0 then .nan else .inf (xor s t)
  | .fin s m _, .inf t => if m = 0 then .nan else .inf (xor s t)
  | .fin s m₁ e₁, .fin t m₂ e₂ =>
    roundNearestEven (xor s t) (m₁ * m₂ * 2 ^ (e₁ + e₂).toNat) (2 ^ (-(e₁ + e₂)).toNat)

/-- Go `x / y` on `float64`: the IEEE-754 quotient. -/
def Float64.div : Float64 → Float64 → Float64
  | .nan, _ => .nan
  | _, .nan => .nan
  | .inf _, .inf _ => .nan
  | .inf s, .fin t _ _ => .inf (xor s t)
  | .fin s _ _, .inf t => .fin (xor s t) 0 (-1074)
  | .fin s m₁ e₁, .fin t m₂ e₂ =>
    if m₂ = 0 then (if m₁ = 0 then .nan else .inf (xor s t))
    else roundNearestEven (xor s t) (m₁ * 2 ^ (e₁ - e₂).toNat) (m₂ * 2 ^ (e₂ - e₁).toNat)

/-- Go conversion `float64(i)` of an `int64`: the nearest binary64 value. -/
def Float64.ofInt64 (i : Int) : Float64 :=
  roundNearestEven (decide (i < 0)) i.natAbs 1

/-- The fraction of a finite value discarded (truncation toward zero);
`none` for NaN and the infinities. -/
def Float64.trunc : Float64 → Option Int
  | .fin neg m e =>
    let mag : Nat := if 0 ≤ e then m * 2 ^ e.toNat else m / 2 ^ (-e).toNat
    some (if neg then -(mag : Int) else mag)
  | _ => none

/-- Two's-complement reduction of an integer to the `int64` range. -/
def wrapInt64 (i : Int) : Int := (i + 2 ^ 63) % 2 ^ 64 - 2 ^ 63

/-- Go conversion `int64(x)` of a `float64`: the fraction is discarded; when
the result does not fit `int64` (or `x` is NaN or infinite) the value is
implementation-dependent, given here by `impl`. -/
def Float64.toInt64 (impl : Float64 → Int) (x : Float64) : Int :=
  match x.trunc with
  | some t => if -2 ^ 63 ≤ t ∧ t < 2 ^ 63 then t else wrapInt64 (impl x)
  | none => wrapInt64 (impl x)

/-- The Go constant `1e18` at type `float64`. -/
def e18 : Float64 := roundNearestEven false (10 ^ 18) 1

/-- ToWei converts amount to wei. -/
def ToWei (impl : Float64 → Int) (amount : Float64) : Int :=
  Float64.toInt64 impl (amount.mul e18)

/-- FromWei converts wei to amount. -/
def FromWei (wei : Int) : Float64 :=
  (Float64.ofInt64 wei).div e18

/-- The rational number denoted by a finite binary64 value. -/
def Float64.toRat : Float64 → Option ℚ
  | .fin neg m e => some ((if neg then -1 else 1) * (m : ℚ) * (2 : ℚ) ^ e)
  | _ => none

/-- Truncation of a rational toward zero. -/
def truncTowardZero (q : ℚ) : Int := if 0 ≤ q then ⌊q⌋ else ⌈q⌉

/-! ## Sample data for worked examples -/

/-- The binary64 value `1`. -/
def Float64.one : Float64 := .fin false 4503599627370496 (-52)

/-- The binary64 value `1.5`. -/
def Float64.onePointFive : Float64 := .fin false 6755399441055744 (-52)

/-- The binary64 value `2`. -/
def Float64.two : Float64 := .fin false 4503599627370496 (-51)

/-- The binary64 value `10`. -/
def Float64.ten : Float64 := .fin false 5629499534213120 (-49)

/-- Decoding of a few sample bodies, as `encoding/json` decodes them; any
other text counts as invalid JSON here.  The body `{"balance":1e400}` is a
well-formed object that the library refuses, its number being outside the
`float64` range. -/
def sampleDecode (data : String) : Except String Value :=
  if data = "\x7b\"error\":\"not found\"\x7d" then
    .ok (.obj [("error", .str "not found")])
  else if data = "null" then .ok .null
  else if data = "[1,2]" then .ok (.arr [.num Float64.one, .num Float64.two])
  else if data = "\x7b\"blocks\":[\x7b\"a\":1\x7d, \"not-an-object\", \x7b\"b\":2\x7d]\x7d" then
    .ok (.obj [("blocks", .arr [.obj [("a", .num Float64.one)], .str "not-an-object",
      .obj [("b", .num Float64.two)]])])
  else if data = "\x7b\"transactions\":[7, \x7b\"id\":\"t1\"\x7d]\x7d" then
    .ok (.obj [("transactions", .arr [.num (.fin false 7881299347898368 (-50)),
      .obj [("id", .str "t1")]])])
  else if data = "\x7b\"balance\":1.5\x7d" then
    .ok (.obj [("balance", .num Float64.onePointFive)])
  else if data = "\x7b\"height\":2\x7d" then
    .ok (.obj [("height", .num Float64.two)])
  else if data = "\x7b\"balance\":1e400\x7d" then
    .error "json: cannot unmarshal number 1e400 into Go value of type float64"
  else .error "invalid character"

/-- A server that answers every request with the given status and body. -/
def sampleEnv (status : Int) (body : String) : Env Unit where
  Marshal := fun _ => .ok "null"
  NewRequestError := fun _ _ => none
  Do := fun _ _ => .ok { StatusCode := status, Body := .ok body }
  Decode := sampleDecode

/-- A client with an API key. -/
def sampleClient : Client :=
  { APIURL := "http://node:3000", APIKey := "k1", HTTPClient := { Timeout := 30 * Second } }

/-! ## Theorems -/

/-! ### Client construction -/

/-- C10: `NewClient` is total; without a config the client has base URL
`http://localhost:3000`, no API key and a timeout of 30 seconds; with a config
it copies the base URL and the API key and takes the config's timeout, or 30
seconds when that timeout is zero. -/
theorem NewClient_spec :
    (NewClient none).1 =
        { APIURL := "http://localhost:3000", APIKey := "",
          HTTPClient := { Timeout := 30000000000 } } ∧
      ∀ cfg : Config, (NewClient (some cfg)).1 =
        { APIURL := cfg.APIURL, APIKey := cfg.APIKey,
          HTTPClient := { Timeout := if cfg.Timeout = 0 then 30000000000 else cfg.Timeout } } := by
  refine ⟨by decide, fun cfg => ?_⟩
  by_cases h : cfg.Timeout = 0 <;> simp [NewClient, h, Second]

/-! ### The request pipeline -/

theorem headerGet_headerSet_self (key value : String) (hs : List (String × String)) :
    headerGet key (headerSet key value hs) = some value := by
  induction hs with
  | nil => simp [headerSet, headerGet]
  | cons kv rest ih =>
    obtain ⟨k, v⟩ := kv
    by_cases h : k = key <;> simp [headerSet, headerGet, h, ih]

theorem headerGet_headerSet_other (key other value : String) (hs : List (String × String))
    (hne : key ≠ other) :
    headerGet other (headerSet key value hs) = headerGet other hs := by
  induction hs with
  | nil => simp [headerSet, headerGet, hne]
  | cons kv rest ih =>
    obtain ⟨k, v⟩ := kv
    by_cases h : k = key
    · subst h; simp [headerSet, headerGet, hne]
    · by_cases h2 : k = other
      · subst h2; simp [headerSet, headerGet, h]
      · simp [headerSet, headerGet, h, h2, ih]

/-- When `buildRequest` succeeds, `Request` hands the built request to the
transport and classifies the answer. -/
theorem Request_of_buildRequest {β : Type} (env : Env β) (c : Client)
    (method endpoint : String) (body : Option β) (req : HTTPRequest)
    (h : c.buildRequest env method endpoint body = .ok req) :
    c.Request env method endpoint body =
      match env.Do c.HTTPClient.Timeout req with
      | .error cause => (none, some (.requestFailed cause))
      | .ok resp =>
        match resp.Body with
        | .error cause => (none, some (.readResponse cause))
        | .ok respBody => classify env resp.StatusCode respBody := by
  simp only [Client.Request, h]

/-- When the request is built, sent and its body read, `Request` is the
classification of the status code and body. -/
theorem Request_of_response {β : Type} (env : Env β) (c : Client)
    (method endpoint : String) (body : Option β) (req : HTTPRequest) (resp : Response)
    (respBody : String)
    (hreq : c.buildRequest env method endpoint body = .ok req)
    (hdo : env.Do c.HTTPClient.Timeout req = .ok resp)
    (hbody : resp.Body = .ok respBody) :
    c.Request env method endpoint body = classify env resp.StatusCode respBody := by
  simp only [Client.Request, hreq, hdo, hbody]

/-- The shape of every request `buildRequest` returns. -/
theorem buildRequest_ok {β : Type} (env : Env β) (c : Client)
    (method endpoint : String) (body : Option β) (req : HTTPRequest)
    (h : c.buildRequest env method endpoint body = .ok req) :
    ∃ reqBody, req =
      { Method := if method = "" then "GET" else method,
        URL := c.APIURL ++ endpoint,
        Header := ("Content-Type", "application/json") ::
          (if c.APIKey = "" then [] else [("Authorization", "Bearer " ++ c.APIKey)]),
        Body := reqBody } := by
  cases hn : env.NewRequestError method (c.APIURL ++ endpoint) with
  | some cause =>
    cases body with
    | none => simp [Client.buildRequest, newRequest, hn] at h
    | some b =>
      cases hm : env.Marshal b <;> simp [Client.buildRequest, newRequest, hn, hm] at h
  | none =>
    cases body with
    | none =>
      refine ⟨none, ?_⟩
      by_cases hk : c.APIKey = "" <;>
        simp [Client.buildRequest, newRequest, hn, hk, headerSet] at h <;> simp [← h, hk]
    | some b =>
      cases hm : env.Marshal b with
      | error cause => simp [Client.buildRequest, newRequest, hn, hm] at h
      | ok jsonData =>
        refine ⟨some jsonData, ?_⟩
        by_cases hk : c.APIKey = "" <;>
          simp [Client.buildRequest, newRequest, hn, hm, hk, headerSet] at h <;> simp [← h, hk]

/-- C4: the request built by `Request` has URL `APIURL ++ endpoint`, a header
holding `Content-Type: application/json` and, exactly when the API key is
non-empty, `Authorization: Bearer <key>`; it is the request given to the
transport. -/
theorem buildRequest_spec {β : Type} (env : Env β) (c : Client)
    (method endpoint : String) (body : Option β) (req : HTTPRequest)
    (h : c.buildRequest env method endpoint body = .ok req) :
    req.URL = c.APIURL ++ endpoint ∧
      headerGet "Content-Type" req.Header = some "application/json" ∧
      (headerGet "Authorization" req.Header ≠ none ↔ c.APIKey ≠ "") ∧
      (c.APIKey ≠ "" →
        headerGet "Authorization" req.Header = some ("Bearer " ++ c.APIKey)) ∧
      req.Header = ("Content-Type", "application/json") ::
        (if c.APIKey = "" then [] else [("Authorization", "Bearer " ++ c.APIKey)]) ∧
      c.Request env method endpoint body =
        (match env.Do c.HTTPClient.Timeout req with
        | .error cause => (none, some (.requestFailed cause))
        | .ok resp =>
          match resp.Body with
          | .error cause => (none, some (.readResponse cause))
          | .ok respBody => classify env resp.StatusCode respBody) := by
  have hR := Request_of_buildRequest env c method endpoint body req h
  obtain ⟨reqBody, rfl⟩ := buildRequest_ok env c method endpoint body req h
  refine ⟨rfl, ?_, ?_, ?_, rfl, hR⟩ <;>
    by_cases hk : c.APIKey = "" <;> simp [hk, headerGet]

/-- Worked example for C4: with API key `k1` the request carries both
headers; without a key it carries `Content-Type` only. -/
theorem buildRequest_spec_witness :
    (sampleClient.buildRequest (sampleEnv 200 "null") "GET" "/health" none =
        .ok { Method := "GET", URL := "http://node:3000/health",
              Header := [("Content-Type", "application/json"), ("Authorization", "Bearer k1")],
              Body := none }) ∧
      headerGet "Authorization"
        [("Content-Type", "application/json"), ("Authorization", "Bearer k1")] =
          some ("Bearer " ++ sampleClient.APIKey) :=
  ⟨rfl,
   (buildRequest_spec (sampleEnv 200 "null") sampleClient "GET" "/health" none
      { Method := "GET", URL := "http://node:3000/health",
        Header := [("Content-Type", "application/json"), ("Authorization", "Bearer k1")],
        Body := none } rfl).2.2.2.1 (by decide)⟩

/-- C1: a response with status code at least 400 makes `Request` return no
result and the error `API error (<status>): <msg>`, where `msg` is the string
under `"error"` when the body decodes to an object with a string there, and
the raw body text otherwise. -/
theorem Request_error_status {β : Type} (env : Env β) (c : Client)
    (method endpoint : String) (body : Option β) (req : HTTPRequest) (resp : Response)
    (respBody : String)
    (hreq : c.buildRequest env method endpoint body = .ok req)
    (hdo : env.Do c.HTTPClient.Timeout req = .ok resp)
    (hbody : resp.Body = .ok respBody)
    (hstatus : resp.StatusCode ≥ 400) :
    ∃ msg, c.Request env method endpoint body = (none, some (.api resp.StatusCode msg)) ∧
      (∀ kvs s, env.Decode respBody = .ok (.obj kvs) →
        lookupKey "error" kvs = some (.str s) → msg = s) ∧
      ((¬ ∃ kvs s, env.Decode respBody = .ok (.obj kvs) ∧
        lookupKey "error" kvs = some (.str s)) → msg = respBody) := by
  rw [Request_of_response env c method endpoint body req resp respBody hreq hdo hbody]
  cases hd : env.Decode respBody with
  | error cause =>
    exact ⟨respBody, by simp [classify, jsonUnmarshalMap, hd, hstatus], by simp, by simp⟩
  | ok v =>
    cases v with
    | obj kvs =>
      cases hl : lookupKey "error" kvs with
      | none =>
        refine ⟨respBody, ?_, ?_, by simp⟩
        · simp [classify, jsonUnmarshalMap, hd, hstatus, GoMap.index, hl, Value.asString]
        · intro kvs2 s h2 h3; cases h2; rw [hl] at h3; cases h3
      | some w =>
        cases w with
        | str s =>
          refine ⟨s, ?_, ?_, ?_⟩
          · simp [classify, jsonUnmarshalMap, hd, hstatus, GoMap.index, hl, Value.asString]
          · intro kvs2 s2 h2 h3; cases h2; rw [hl] at h3; cases h3; rfl
          · intro hno; exact absurd ⟨kvs, s, rfl, hl⟩ hno
        | _ =>
          refine ⟨respBody, ?_, ?_, by simp⟩
          · simp [classify, jsonUnmarshalMap, hd, hstatus, GoMap.index, hl, Value.asString]
          · intro kvs2 s h2 h3; cases h2; rw [hl] at h3; cases h3
    | _ =>
      exact ⟨respBody,
        by simp [classify, jsonUnmarshalMap, hd, hstatus, GoMap.index, Value.asString],
        by simp, by simp⟩

/-- Worked examples for C1: status 404 with body `{"error":"not found"}`
gives `API error (404): not found`; status 500 with a body that is not JSON
gives the raw body as message. -/
theorem Request_error_status_witness :
    (sampleClient.Request (sampleEnv 404 "\x7b\"error\":\"not found\"\x7d") "GET" "/api/x"
        (none : Option Unit) = (none, some (.api 404 "not found")) ∧
      (Error.api 404 "not found").text = "API error (404): not found") ∧
      sampleClient.Request (sampleEnv 500 "Internal Server Error") "GET" "/api/x"
        (none : Option Unit) = (none, some (.api 500 "Internal Server Error")) := by
  obtain ⟨msg, hres, hmsg, -⟩ :=
    Request_error_status (sampleEnv 404 "\x7b\"error\":\"not found\"\x7d") sampleClient
      "GET" "/api/x" none _ _ _ rfl rfl rfl (by decide)
  have hm : msg = "not found" := hmsg [("error", .str "not found")] "not found" rfl rfl
  subst hm
  obtain ⟨msg2, hres2, -, hraw⟩ :=
    Request_error_status (sampleEnv 500 "Internal Server Error") sampleClient
      "GET" "/api/x" none _ _ _ rfl rfl rfl (by decide)
  have hm2 : msg2 = "Internal Server Error" := by
    apply hraw
    rintro ⟨kvs, s, hd, -⟩
    cases hd
  subst hm2
  exact ⟨⟨hres, by decide⟩, hres2⟩

/-- C2 fails for a body that is JSON `null`: with status 200 `Request`
returns a `nil` result and no error. -/
theorem Request_null_body_no_error :
    (sampleEnv 200 "null").Decode "null" = .ok .null ∧
      sampleClient.Request (sampleEnv 200 "null") "GET" "/health" (none : Option Unit) =
        (none, none) :=
  ⟨rfl, rfl⟩

/-- C2, amended: for a status code below 400, `Request` succeeds only when
the body is a top-level JSON object or JSON `null`; on success with an object
the result is that object, with `null` the result is the `nil` map and there
is no error; every body that decodes to neither (undecodable text, an array,
a scalar other than `null`, the empty body) fails with
`failed to unmarshal response`. -/
theorem Request_success_status {β : Type} (env : Env β) (c : Client)
    (method endpoint : String) (body : Option β) (req : HTTPRequest) (resp : Response)
    (respBody : String)
    (hreq : c.buildRequest env method endpoint body = .ok req)
    (hdo : env.Do c.HTTPClient.Timeout req = .ok resp)
    (hbody : resp.Body = .ok respBody)
    (hstatus : resp.StatusCode < 400) :
    (∀ result, c.Request env method endpoint body = (result, none) →
        (∃ kvs, env.Decode respBody = .ok (.obj kvs) ∧ result = some kvs) ∨
        (env.Decode respBody = .ok .null ∧ result = none)) ∧
      (env.Decode respBody = .ok .null →
        c.Request env method endpoint body = (none, none)) ∧
      ((∀ kvs, env.Decode respBody ≠ .ok (.obj kvs)) → env.Decode respBody ≠ .ok .null →
        ∃ cause, c.Request env method endpoint body =
          (none, some (.unmarshalResponse cause))) ∧
      (∀ kvs, env.Decode respBody = .ok (.obj kvs) →
        c.Request env method endpoint body = (some kvs, none)) := by
  rw [Request_of_response env c method endpoint body req resp respBody hreq hdo hbody]
  have hs : ¬ resp.StatusCode ≥ 400 := by omega
  cases hd : env.Decode respBody with
  | error cause =>
    refine ⟨?_, by simp, fun _ _ => by simp [classify, jsonUnmarshalMap, hd, hs], by simp⟩
    intro result h
    simp [classify, jsonUnmarshalMap, hd, hs] at h
  | ok v =>
    cases v with
    | obj kvs =>
      refine ⟨?_, by simp, fun h _ => absurd rfl (h kvs), ?_⟩
      · intro result h
        simp only [classify, jsonUnmarshalMap, hd, hs, if_false, Prod.mk.injEq, and_true] at h
        exact Or.inl ⟨kvs, rfl, h.symm⟩
      · intro kvs2 h2; cases h2
        simp [classify, jsonUnmarshalMap, hd, hs]
    | null =>
      refine ⟨?_, fun _ => by simp [classify, jsonUnmarshalMap, hd, hs],
        fun _ h => absurd rfl h, by simp⟩
      intro result h
      simp only [classify, jsonUnmarshalMap, hd, hs, if_false, Prod.mk.injEq, and_true] at h
      exact Or.inr ⟨rfl, h.symm⟩
    | _ =>
      refine ⟨?_, by simp, fun _ _ => by simp [classify, jsonUnmarshalMap, hd, hs], by simp⟩
      intro result h
      simp [classify, jsonUnmarshalMap, hd, hs] at h

/-- Worked examples for C2: status 200 with body `{"height":2}` succeeds, and
only with that object as result; status 200 with the object body
`{"balance":1e400}`, which the decoder refuses, fails with
`failed to unmarshal response`. -/
theorem Request_success_status_witness :
    (∀ result,
        sampleClient.Request (sampleEnv 200 "\x7b\"height\":2\x7d") "GET"
          "/api/blockchain/info" (none : Option Unit) = (result, none) →
        result = some [("height", .num Float64.two)]) ∧
      sampleClient.Request (sampleEnv 200 "\x7b\"height\":2\x7d") "GET" "/api/blockchain/info"
        (none : Option Unit) = (some [("height", .num Float64.two)], none) ∧
      ∃ cause, sampleClient.Request (sampleEnv 200 "\x7b\"balance\":1e400\x7d") "GET"
        "/api/wallets/balance/0xabc" (none : Option Unit) =
          (none, some (.unmarshalResponse cause)) := by
  refine ⟨fun result h => ?_, ?_, ?_⟩
  · rcases (Request_success_status (sampleEnv 200 "\x7b\"height\":2\x7d") sampleClient
      "GET" "/api/blockchain/info" none _ _ _ rfl rfl rfl (by decide)).1 result h with
      ⟨kvs, hd, hres⟩ | ⟨hd, -⟩
    · cases hd; exact hres
    · cases hd
  · exact (Request_success_status (sampleEnv 200 "\x7b\"height\":2\x7d") sampleClient
      "GET" "/api/blockchain/info" none _ _ _ rfl rfl rfl (by decide)).2.2.2 _ rfl
  · exact (Request_success_status (sampleEnv 200 "\x7b\"balance\":1e400\x7d") sampleClient
      "GET" "/api/wallets/balance/0xabc" none _ _ _ rfl rfl rfl (by decide)).2.2.1
      (fun kvs h => by cases h) (fun h => by cases h)

/-- C3: a response with status 200 whose body is a JSON array makes `Request`
return no result and the error `failed to unmarshal response: ...`. -/
theorem Request_array_body {β : Type} (env : Env β) (c : Client)
    (method endpoint : String) (body : Option β) (req : HTTPRequest) (resp : Response)
    (respBody : String) (xs : List Value)
    (hreq : c.buildRequest env method endpoint body = .ok req)
    (hdo : env.Do c.HTTPClient.Timeout req = .ok resp)
    (hbody : resp.Body = .ok respBody)
    (hstatus : resp.StatusCode = 200)
    (harr : env.Decode respBody = .ok (.arr xs)) :
    c.Request env method endpoint body =
        (none, some (.unmarshalResponse (.wrongType "array"))) ∧
      (Error.unmarshalResponse (.wrongType "array")).text =
        "failed to unmarshal response: " ++ (UnmarshalError.wrongType "array").text := by
  rw [Request_of_response env c method endpoint body req resp respBody hreq hdo hbody]
  exact ⟨by simp [classify, jsonUnmarshalMap, harr, hstatus], rfl⟩

/-- Worked example for C3: status 200 with body `[1,2]`. -/
theorem Request_array_body_witness :
    sampleClient.Request (sampleEnv 200 "[1,2]") "GET" "/api/blockchain/info"
        (none : Option Unit) = (none, some (.unmarshalResponse (.wrongType "array"))) :=
  (Request_array_body (sampleEnv 200 "[1,2]") sampleClient "GET" "/api/blockchain/info"
    none _ _ _ _ rfl rfl rfl rfl rfl).1

/-! ### Endpoint adapters -/

/-- The append loop of the list adapters collects the objects of the slice,
in order. -/
theorem foldl_asMap (xs : List Value) (acc : List (List (String × Value))) :
    xs.foldl (fun typed v =>
        match v.asMap with
        | some b => typed ++ [b]
        | none => typed) acc = acc ++ xs.filterMap Value.asMap := by
  induction xs generalizing acc with
  | nil => simp
  | cons v rest ih =>
    rw [List.foldl_cons, List.filterMap_cons]
    cases h : v.asMap with
    | none => simp only [ih]
    | some b => simp only [ih, List.append_assoc, List.singleton_append]

/-- The objects collected from a slice are the elements of the slice that
are objects, in their original order. -/
theorem filterMap_asMap (xs : List Value) :
    (xs.filterMap Value.asMap).map Value.obj = xs.filter fun v => v.asMap.isSome := by
  induction xs with
  | nil => simp
  | cons v rest ih =>
    cases v <;> simp [Value.asMap, List.filterMap_cons, List.filter_cons, ih]

/-- An array under `key` in a non-nil result is what the slice assertion on
`result[key]` finds. -/
theorem asSlice_index (result : GoMap) (key : String) :
    (∀ kvs xs, result = some kvs → lookupKey key kvs = some (.arr xs) →
        (result.index key).asSlice = some xs) ∧
      ((¬ ∃ kvs xs, result = some kvs ∧ lookupKey key kvs = some (.arr xs)) →
        (result.index key).asSlice = none) := by
  constructor
  · intro kvs xs h1 h2
    subst h1
    simp [GoMap.index, h2, Value.asSlice]
  · intro hno
    cases result with
    | none => simp [GoMap.index, Value.asSlice]
    | some kvs =>
      cases hl : lookupKey key kvs with
      | none => simp [GoMap.index, hl, Value.asSlice]
      | some v =>
        cases v with
        | arr xs => exact absurd ⟨kvs, xs, rfl, hl⟩ hno
        | _ => simp [GoMap.index, hl, Value.asSlice]

/-- C6: on a successful result, `GetLatestBlocks` (key `blocks`) and
`GetTransactionHistory` (key `transactions`) return the elements of the array
under the key that are objects, in their original order, and fail with
`unexpected response format` exactly when the key is missing or does not hold
an array. -/
theorem list_extraction_spec {β : Type} (env : Env β) (c : Client) :
    (∀ (count : Int) (result : GoMap),
        c.Request env "GET" ("/api/blockchain/blocks?limit=" ++ toString count) none =
          (result, none) →
        (∀ kvs xs, result = some kvs → lookupKey "blocks" kvs = some (.arr xs) →
          (c.GetLatestBlocks env count).2 = none ∧
          (c.GetLatestBlocks env count).1.map Value.obj = xs.filter fun v => v.asMap.isSome) ∧
        ((¬ ∃ kvs xs, result = some kvs ∧ lookupKey "blocks" kvs = some (.arr xs)) →
          c.GetLatestBlocks env count = ([], some .unexpectedResponseFormat))) ∧
      (∀ (address : String) (limit offset : Int) (result : GoMap),
        c.Request env "GET" ("/api/transactions/history/" ++ address ++ "?limit=" ++
          toString limit ++ "&offset=" ++ toString offset) none = (result, none) →
        (∀ kvs xs, result = some kvs → lookupKey "transactions" kvs = some (.arr xs) →
          (c.GetTransactionHistory env address limit offset).2 = none ∧
          (c.GetTransactionHistory env address limit offset).1.map Value.obj =
            xs.filter fun v => v.asMap.isSome) ∧
        ((¬ ∃ kvs xs, result = some kvs ∧ lookupKey "transactions" kvs = some (.arr xs)) →
          c.GetTransactionHistory env address limit offset =
            ([], some .unexpectedResponseFormat))) := by
  refine ⟨fun count result hreq => ⟨?_, ?_⟩, fun address limit offset result hreq => ⟨?_, ?_⟩⟩
  · intro kvs xs h1 h2
    have hs := (asSlice_index result "blocks").1 kvs xs h1 h2
    simp only [Client.GetLatestBlocks, hreq, hs, foldl_asMap, List.nil_append,
      filterMap_asMap, and_self]
  · intro hno
    have hs := (asSlice_index result "blocks").2 hno
    simp only [Client.GetLatestBlocks, hreq, hs]
  · intro kvs xs h1 h2
    have hs := (asSlice_index result "transactions").1 kvs xs h1 h2
    simp only [Client.GetTransactionHistory, hreq, hs, foldl_asMap, List.nil_append,
      filterMap_asMap, and_self]
  · intro hno
    have hs := (asSlice_index result "transactions").2 hno
    simp only [Client.GetTransactionHistory, hreq, hs]

/-- Worked examples for C6: the body
`{"blocks":[{"a":1}, "not-an-object", {"b":2}]}` yields the two objects, in
order; a body without `"blocks"` fails; the transaction list drops a number. -/
theorem list_extraction_spec_witness :
    (sampleClient.GetLatestBlocks
        (sampleEnv 200
          "\x7b\"blocks\":[\x7b\"a\":1\x7d, \"not-an-object\", \x7b\"b\":2\x7d]\x7d") 5).1.map
        Value.obj =
      [.obj [("a", .num Float64.one)], .obj [("b", .num Float64.two)]] ∧
      sampleClient.GetLatestBlocks (sampleEnv 200 "\x7b\"height\":2\x7d") 5 =
        ([], some .unexpectedResponseFormat) ∧
      (sampleClient.GetTransactionHistory
        (sampleEnv 200 "\x7b\"transactions\":[7, \x7b\"id\":\"t1\"\x7d]\x7d") "0xabc" 10 0).1.map
        Value.obj = [.obj [("id", .str "t1")]] :=
  ⟨(((list_extraction_spec
      (sampleEnv 200 "\x7b\"blocks\":[\x7b\"a\":1\x7d, \"not-an-object\", \x7b\"b\":2\x7d]\x7d")
      sampleClient).1 5 _ rfl).1 _ _ rfl rfl).2,
   ((list_extraction_spec (sampleEnv 200 "\x7b\"height\":2\x7d") sampleClient).1 5 _ rfl).2
      (by rintro ⟨kvs, xs, h1, h2⟩; cases h1; simp [lookupKey] at h2),
   (((list_extraction_spec
      (sampleEnv 200 "\x7b\"transactions\":[7, \x7b\"id\":\"t1\"\x7d]\x7d")
      sampleClient).2 "0xabc" 10 0 _ rfl).1 _ _ rfl rfl).2⟩

/-- C7: `GetBalance` returns `0` with the error of `Request` when `Request`
fails, the number under `"balance"` when `Request` succeeds with a number
there, and `0` with `unexpected balance format` when `Request` succeeds
without a number there. -/
theorem GetBalance_spec {β : Type} (env : Env β) (c : Client) (address : String) :
    (∀ result err, c.Request env "GET" ("/api/wallets/balance/" ++ address) none =
        (result, some err) →
        c.GetBalance env address = (Float64.zero, some err)) ∧
      (∀ kvs x, c.Request env "GET" ("/api/wallets/balance/" ++ address) none =
        (some kvs, none) → lookupKey "balance" kvs = some (.num x) →
        c.GetBalance env address = (x, none)) ∧
      (∀ result, c.Request env "GET" ("/api/wallets/balance/" ++ address) none =
        (result, none) →
        (¬ ∃ kvs x, result = some kvs ∧ lookupKey "balance" kvs = some (.num x)) →
        c.GetBalance env address = (Float64.zero, some .unexpectedBalanceFormat)) := by
  refine ⟨fun result err h => ?_, fun kvs x h hl => ?_, fun result h hno => ?_⟩
  · simp only [Client.GetBalance, h]
  · simp only [Client.GetBalance, h, GoMap.index, hl, Option.getD_some, Value.asFloat64]
  · cases result with
    | none => simp only [Client.GetBalance, h, GoMap.index, Value.asFloat64]
    | some kvs =>
      cases hl : lookupKey "balance" kvs with
      | none => simp [Client.GetBalance, h, GoMap.index, hl, Value.asFloat64]
      | some v =>
        cases v with
        | num x => exact absurd ⟨kvs, x, rfl, hl⟩ hno
        | _ => simp [Client.GetBalance, h, GoMap.index, hl, Value.asFloat64]

/-- Worked example for C7: body `{"balance":1.5}` gives `1.5`; a `404`
answer is passed on unchanged with balance `0`. -/
theorem GetBalance_spec_witness :
    sampleClient.GetBalance (sampleEnv 200 "\x7b\"balance\":1.5\x7d") "0xabc" =
        (Float64.onePointFive, none) ∧
      sampleClient.GetBalance (sampleEnv 404 "\x7b\"error\":\"not found\"\x7d") "0xabc" =
        (Float64.zero, some (.api 404 "not found")) :=
  ⟨(GetBalance_spec (sampleEnv 200 "\x7b\"balance\":1.5\x7d") sampleClient "0xabc").2.1
      _ _ rfl rfl,
   (GetBalance_spec (sampleEnv 404 "\x7b\"error\":\"not found\"\x7d") sampleClient "0xabc").1
      _ _ rfl⟩

/-! ### Regular expressions -/

theorem run_cls_nil (rs : List (Char × Char)) (b : Bool) :
    (Re.cls rs).run (b, []) = [] := rfl

theorem run_cls_cons (rs : List (Char × Char)) (b : Bool) (x : Char) (rest : List Char) :
    (Re.cls rs).run (b, x :: rest) = if inRanges rs x then [(false, rest)] else [] := rfl

/-- The positions reached by `[class]+`: after any non-empty run of class
characters at the front of the input. -/
theorem mem_plusRun_cls (rs : List (Char × Char)) (fuel : Nat) (b : Bool) (s : List Char)
    (st : Bool × List Char) (hfuel : s.length < fuel) :
    st ∈ plusRun (Re.cls rs).run fuel (b, s) ↔
      st.1 = false ∧ ∃ pre, pre ≠ [] ∧ (∀ c ∈ pre, inRanges rs c = true) ∧ s = pre ++ st.2 := by
  induction fuel generalizing b s with
  | zero => omega
  | succ fuel ih =>
    cases s with
    | nil =>
      simp only [plusRun, run_cls_nil, List.flatMap_nil, List.not_mem_nil, false_iff]
      rintro ⟨-, pre, hne, -, happ⟩
      cases pre with
      | nil => exact hne rfl
      | cons y pre => cases happ
    | cons x rest =>
      have hlen : rest.length < fuel := by simp at hfuel; omega
      by_cases hx : inRanges rs x = true
      · simp only [plusRun, run_cls_cons, hx, if_true, List.flatMap_cons, List.flatMap_nil,
          List.append_nil, List.length_cons, Nat.lt_succ_self, List.mem_cons, ih false rest hlen]
        constructor
        · rintro (h | ⟨h1, pre, hne, hall, happ⟩)
          · subst h
            exact ⟨rfl, [x], by simp, by simpa using hx, by simp⟩
          · refine ⟨h1, x :: pre, by simp, ?_, by simp [happ]⟩
            intro c hc
            rcases List.mem_cons.1 hc with h | h
            · subst h; exact hx
            · exact hall c h
        · rintro ⟨h1, pre, hne, hall, happ⟩
          cases pre with
          | nil => exact absurd rfl hne
          | cons y pre =>
            simp only [List.cons_append, List.cons.injEq] at happ
            obtain ⟨-, hrest⟩ := happ
            cases pre with
            | nil =>
              left
              obtain ⟨f, t⟩ := st
              simp only at h1
              simp only [List.nil_append] at hrest
              simp [h1, hrest]
            | cons z pre =>
              right
              exact ⟨h1, z :: pre, by simp, fun c hc => hall c (List.mem_cons_of_mem _ hc),
                hrest⟩
      · simp only [plusRun, run_cls_cons, hx, Bool.false_eq_true, if_false, List.flatMap_nil, List.not_mem_nil,
          false_iff]
        rintro ⟨-, pre, hne, hall, happ⟩
        cases pre with
        | nil => exact hne rfl
        | cons y pre =>
          simp only [List.cons_append, List.cons.injEq] at happ
          exact hx (happ.1 ▸ hall y (List.mem_cons_self _ _))

/-- The positions reached by `[class]{n}`: after exactly `n` class
characters at the front of the input. -/
theorem mem_repeatRun_cls (rs : List (Char × Char)) (n : Nat) (b : Bool) (s t : List Char) :
    (∃ st ∈ repeatRun (Re.cls rs).run n (b, s), st.2 = t) ↔
      ∃ pre, pre.length = n ∧ (∀ c ∈ pre, inRanges rs c = true) ∧ s = pre ++ t := by
  induction n generalizing b s with
  | zero =>
    simp only [repeatRun, List.mem_singleton]
    constructor
    · rintro ⟨st, rfl, h⟩
      exact ⟨[], rfl, by simp, by simpa using h⟩
    · rintro ⟨pre, hlen, -, happ⟩
      have hpre : pre = [] := List.length_eq_zero.1 hlen
      subst hpre
      exact ⟨(b, s), rfl, by simpa using happ⟩
  | succ n ih =>
    cases s with
    | nil =>
      simp only [repeatRun, run_cls_nil, List.flatMap_nil, List.not_mem_nil, false_and,
        exists_false, false_iff]
      rintro ⟨pre, hlen, -, happ⟩
      cases pre with
      | nil => simp at hlen
      | cons y pre => cases happ
    | cons x rest =>
      by_cases hx : inRanges rs x = true
      · simp only [repeatRun, run_cls_cons, hx, if_true, List.flatMap_cons, List.flatMap_nil,
          List.append_nil, ih false rest]
        constructor
        · rintro ⟨pre, hlen, hall, happ⟩
          refine ⟨x :: pre, by simp [hlen], ?_, by simp [happ]⟩
          intro c hc
          rcases List.mem_cons.1 hc with h | h
          · subst h; exact hx
          · exact hall c h
        · rintro ⟨pre, hlen, hall, happ⟩
          cases pre with
          | nil => simp at hlen
          | cons y pre =>
            simp only [List.cons_append, List.cons.injEq] at happ
            exact ⟨pre, by simpa using hlen, fun c hc => hall c (List.mem_cons_of_mem _ hc),
              happ.2⟩
      · simp only [repeatRun, run_cls_cons, hx, Bool.false_eq_true, if_false, List.flatMap_nil, List.not_mem_nil,
          false_and, exists_false, false_iff]
        rintro ⟨pre, hlen, hall, happ⟩
        cases pre with
        | nil => simp at hlen
        | cons y pre =>
          simp only [List.cons_append, List.cons.injEq] at happ
          exact hx (happ.1 ▸ hall y (List.mem_cons_self _ _))

/-- A pattern that begins with `^` matches nowhere but at the start. -/
theorem search_bol_false (r : Re) (s : List Char) : (Re.cat .bol r).search false s = false := by
  induction s with
  | nil => simp [Re.search, Re.run]
  | cons c cs ih => simp [Re.search, Re.run, ih]

/-- A pattern that begins with `^` matches a text iff its remainder matches
at the start of the text. -/
theorem search_bol_true (r : Re) (s : List Char) :
    (Re.cat .bol r).search true s = true ↔ ∃ st, st ∈ r.run (true, s) := by
  cases s with
  | nil =>
    simp only [Re.search, Re.run, if_true, List.flatMap_cons, List.flatMap_nil, List.append_nil,
      Bool.not_eq_true', List.isEmpty_eq_false_iff_exists_mem]
  | cons c cs =>
    simp only [Re.search, search_bol_false, Bool.or_false, Re.run, if_true, List.flatMap_cons,
      List.flatMap_nil, List.append_nil, Bool.not_eq_true', List.isEmpty_eq_false_iff_exists_mem]

/-- A match of `r$` is a match of `r` that ends at the end of the text. -/
theorem mem_run_cat_eol (r : Re) (st0 : Bool × List Char) :
    (∃ st, st ∈ (Re.cat r .eol).run st0) ↔ ∃ st ∈ r.run st0, st.2 = [] := by
  simp only [Re.run, List.mem_flatMap]
  constructor
  · rintro ⟨st, a, ha, hst⟩
    refine ⟨a, ha, ?_⟩
    by_cases he : a.2.isEmpty = true
    · simpa using he
    · simp [he] at hst
  · rintro ⟨a, ha, he⟩
    exact ⟨a, a, ha, by simp [he]⟩

theorem run_plus (r : Re) (st : Bool × List Char) :
    (Re.plus r).run st = plusRun r.run (st.2.length + 1) st := rfl

theorem run_rep (r : Re) (n : Nat) (st : Bool × List Char) :
    (Re.rep r n).run st = repeatRun r.run n st := rfl

theorem run_lit_cat (c : Char) (r : Re) (b : Bool) (s : List Char) :
    (∃ st, st ∈ (Re.cat (.lit c) r).run (b, s)) ↔
      ∃ rest, s = c :: rest ∧ ∃ st, st ∈ r.run (false, rest) := by
  cases s with
  | nil => simp [Re.run]
  | cons x rest =>
    by_cases hx : x = c
    · subst hx; simp [Re.run]
    · simp [Re.run, hx]

/-- The pattern `^\d+$` matches exactly the non-empty strings of decimal
digits. -/
theorem blockIndexPattern_match (s : String) :
    blockIndexPattern.MatchString s = true ↔
      s ≠ "" ∧ ∀ c ∈ s.toList, '0' ≤ c ∧ c ≤ '9' := by
  have hne : s ≠ "" ↔ s.toList ≠ [] := by
    rw [Ne, Ne, String.ext_iff]; rfl
  rw [hne]
  unfold Re.MatchString blockIndexPattern
  rw [search_bol_true, mem_run_cat_eol]
  simp only [run_plus]
  constructor
  · rintro ⟨st, hst, hnil⟩
    rw [mem_plusRun_cls _ _ _ _ _ (Nat.lt_succ_self _)] at hst
    obtain ⟨-, pre, hpre, hall, happ⟩ := hst
    rw [hnil, List.append_nil] at happ
    rw [happ]
    refine ⟨hpre, fun c hc => ?_⟩
    simpa [inRanges] using hall c hc
  · rintro ⟨hpre, hall⟩
    refine ⟨(false, []), ?_, rfl⟩
    rw [mem_plusRun_cls _ _ _ _ _ (Nat.lt_succ_self _)]
    refine ⟨rfl, s.toList, hpre, fun c hc => ?_, by simp⟩
    simpa [inRanges] using hall c hc

/-- C5: `GetBlock` sends a GET to `/api/blockchain/block-by-index/<id>` when
the identifier is a non-empty string of decimal digits and to
`/api/blockchain/block/<id>` otherwise; the two paths are never equal. -/
theorem GetBlock_routing {β : Type} (env : Env β) (c : Client) (identifier : String) :
    c.GetBlock env identifier = c.Request env "GET" (blockEndpoint identifier) none ∧
      blockEndpoint identifier =
        (if identifier ≠ "" ∧ ∀ ch ∈ identifier.toList, '0' ≤ ch ∧ ch ≤ '9' then
          "/api/blockchain/block-by-index/" ++ identifier
        else "/api/blockchain/block/" ++ identifier) ∧
      "/api/blockchain/block-by-index/" ++ identifier ≠
        "/api/blockchain/block/" ++ identifier ∧
      blockEndpoint "42" = "/api/blockchain/block-by-index/42" ∧
      blockEndpoint "0xabc" = "/api/blockchain/block/0xabc" ∧
      blockEndpoint "" = "/api/blockchain/block/" := by
  refine ⟨rfl, ?_, ?_, by decide, by decide, by decide⟩
  · unfold blockEndpoint
    by_cases h : identifier ≠ "" ∧ ∀ ch ∈ identifier.toList, '0' ≤ ch ∧ ch ≤ '9'
    · rw [if_pos h]
      simp only [(blockIndexPattern_match identifier).2 h, if_true]
    · rw [if_neg h]
      have hm : blockIndexPattern.MatchString identifier = false := by
        cases hb : blockIndexPattern.MatchString identifier with
        | false => rfl
        | true => exact absurd ((blockIndexPattern_match identifier).1 hb) h
      simp only [hm, Bool.false_eq_true, if_false]
  · intro h
    have h2 := congrArg String.data h
    simp [String.data_append] at h2

/-- C8: `IsValidAddress` holds exactly for the strings of 42 characters that
begin with `0x` and continue with 40 hexadecimal digits of either case. -/
theorem IsValidAddress_spec (s : String) :
    IsValidAddress s = true ↔
      s.length = 42 ∧ ∃ rest, s.toList = '0' :: 'x' :: rest ∧
        ∀ c ∈ rest, ('0' ≤ c ∧ c ≤ '9') ∨ ('a' ≤ c ∧ c ≤ 'f') ∨ ('A' ≤ c ∧ c ≤ 'F') := by
  have hlen : s.length = s.toList.length := rfl
  have hcls : ∀ c, inRanges [('a', 'f'), ('A', 'F'), ('0', '9')] c = true ↔
      (('0' ≤ c ∧ c ≤ '9') ∨ ('a' ≤ c ∧ c ≤ 'f') ∨ ('A' ≤ c ∧ c ≤ 'F')) := by
    intro c
    simp only [inRanges, List.any_cons, List.any_nil, Bool.or_false, Bool.or_eq_true,
      Bool.and_eq_true, decide_eq_true_eq]
    tauto
  unfold IsValidAddress Re.MatchString addressPattern
  rw [search_bol_true, run_lit_cat, hlen]
  simp only [run_lit_cat, mem_run_cat_eol, run_rep, mem_repeatRun_cls, List.append_nil]
  constructor
  · rintro ⟨r1, h1, r2, h2, pre, hpl, hall, rfl⟩
    subst h2
    refine ⟨by rw [h1]; simp [hpl], r2, h1, fun c hc => (hcls c).1 (hall c hc)⟩
  · rintro ⟨h42, rest, hs, hall⟩
    refine ⟨'x' :: rest, hs, rest, rfl, rest, ?_, fun c hc => (hcls c).2 (hall c hc), rfl⟩
    rw [hs] at h42
    simpa using h42

/-! ### Unit conversion -/

set_option maxRecDepth 100000

/-- With enough fuel, `bitLength` is the number of binary digits. -/
theorem bitLength_bounds (fuel n : Nat) (hn : 0 < n) (hfuel : n < 2 ^ fuel) :
    2 ^ bitLength fuel n ≤ 2 * n ∧ n < 2 ^ bitLength fuel n := by
  induction fuel generalizing n with
  | zero => simp at hfuel; omega
  | succ fuel ih =>
    have hne : n ≠ 0 := by omega
    simp only [bitLength, hne, if_false]
    by_cases h1 : n / 2 = 0
    · have hn1 : n = 1 := by omega
      subst hn1
      cases fuel <;> simp [bitLength]
    · have hlt : n / 2 < 2 ^ fuel := by
        rw [Nat.pow_succ] at hfuel; omega
      obtain ⟨h2, h3⟩ := ih (n / 2) (by omega) hlt
      rw [Nat.pow_succ]
      constructor <;> omega

/-- The fuel `n` is enough for `n`. -/
theorem bitLength_self (n : Nat) (hn : 0 < n) :
    2 ^ bitLength n n ≤ 2 * n ∧ n < 2 ^ bitLength n n :=
  bitLength_bounds n n hn (Nat.lt_two_pow n)


/-- A power of two with an integer exponent as a quotient of two natural
powers. -/
theorem zpow_toNat_split (z : Int) :
    (2 : ℚ) ^ z = (2 : ℚ) ^ z.toNat / (2 : ℚ) ^ (-z).toNat := by
  rcases le_total 0 z with h | h
  · have h0 : (-z).toNat = 0 := by omega
    rw [h0, pow_zero, div_one, ← zpow_natCast, Int.toNat_of_nonneg h]
  · have h0 : z.toNat = 0 := by omega
    have h1 : ((-z).toNat : Int) = -z := Int.toNat_of_nonneg (by omega)
    rw [h0, pow_zero, one_div, ← zpow_natCast, h1, zpow_neg, inv_inv]

/-- The function `binaryExponent` brackets the fraction between consecutive powers of
two. -/
theorem binaryExponent_spec (num den : Nat) (hn : 0 < num) (hd : 0 < den) :
    (2 : ℚ) ^ binaryExponent num den ≤ (num : ℚ) / den ∧
      (num : ℚ) / den < (2 : ℚ) ^ (binaryExponent num den + 1) := by
  obtain ⟨ha1, ha2⟩ := bitLength_self num hn
  obtain ⟨hb1, hb2⟩ := bitLength_self den hd
  have hdq : (0 : ℚ) < den := by exact_mod_cast hd
  have hnq : (0 : ℚ) < num := by exact_mod_cast hn
  set a := bitLength num num with ha
  set b := bitLength den den with hb
  have ha1q : (2 : ℚ) ^ a ≤ 2 * num := by exact_mod_cast ha1
  have ha2q : (num : ℚ) < 2 ^ a := by exact_mod_cast ha2
  have hb1q : (2 : ℚ) ^ b ≤ 2 * den := by exact_mod_cast hb1
  have hb2q : (den : ℚ) < 2 ^ b := by exact_mod_cast hb2
  have hpa : (0 : ℚ) < 2 ^ a := by positivity
  have hpb : (0 : ℚ) < 2 ^ b := by positivity
  have hz : (2 : ℚ) ^ ((a : Int) - b) = (2 : ℚ) ^ a / (2 : ℚ) ^ b := by
    rw [zpow_sub₀ (by norm_num), zpow_natCast, zpow_natCast]
  have hsplit := zpow_toNat_split ((a : Int) - b)
  have hneg : -((a : Int) - b) = (b : Int) - a := by ring
  rw [hneg] at hsplit
  have hcond : den * 2 ^ ((a : Int) - b).toNat ≤ num * 2 ^ ((b : Int) - a).toNat ↔
      (2 : ℚ) ^ ((a : Int) - b) ≤ (num : ℚ) / den := by
    rw [hsplit, div_le_div_iff₀ (by positivity) hdq]
    constructor
    · intro h
      have : ((den * 2 ^ ((a : Int) - b).toNat : Nat) : ℚ) ≤
          ((num * 2 ^ ((b : Int) - a).toNat : Nat) : ℚ) := by exact_mod_cast h
      push_cast at this
      linarith
    · intro h
      have : ((den * 2 ^ ((a : Int) - b).toNat : Nat) : ℚ) ≤
          ((num * 2 ^ ((b : Int) - a).toNat : Nat) : ℚ) := by
        push_cast; linarith
      exact_mod_cast this
  unfold binaryExponent
  simp only [← ha, ← hb]
  by_cases hc : den * 2 ^ ((a : Int) - b).toNat ≤ num * 2 ^ ((b : Int) - a).toNat
  · rw [if_pos hc]
    refine ⟨hcond.1 hc, ?_⟩
    rw [zpow_add₀ (by norm_num), hz, zpow_one, div_lt_iff₀ hdq]
    calc (num : ℚ) < 2 ^ a := ha2q
      _ ≤ 2 ^ a / 2 ^ b * 2 * den := by
        rw [div_mul_eq_mul_div, div_mul_eq_mul_div, le_div_iff₀ hpb]
        nlinarith
  · rw [if_neg hc]
    constructor
    · rw [zpow_sub₀ (by norm_num), hz, zpow_one, le_div_iff₀ hdq, div_div, div_mul_eq_mul_div,
        div_le_iff₀ (by positivity)]
      nlinarith
    · rw [sub_add_cancel]
      exact lt_of_not_le fun h => hc (hcond.2 h)

/-- The function `roundHalfEven` is within one half of the fraction, next to its integer
part, and even on a tie. -/
theorem roundHalfEven_spec (n d : Nat) (hd : 0 < d) :
    |(roundHalfEven n d : ℚ) - (n : ℚ) / d| ≤ 1 / 2 ∧
      n / d ≤ roundHalfEven n d ∧ roundHalfEven n d ≤ n / d + 1 ∧
      (|(roundHalfEven n d : ℚ) - (n : ℚ) / d| = 1 / 2 → roundHalfEven n d % 2 = 0) := by
  have hdq : (0 : ℚ) < d := by exact_mod_cast hd
  have hr : n % d < d := Nat.mod_lt n hd
  have hsplit : (n : ℚ) / d = (n / d : Nat) + ((n % d : Nat) : ℚ) / d := by
    have h := Nat.div_add_mod n d
    have hq : (n : ℚ) = (d : ℚ) * (n / d : Nat) + (n % d : Nat) := by exact_mod_cast h.symm
    field_simp
    linarith
  have hrq : ((n % d : Nat) : ℚ) < d := by exact_mod_cast hr
  have hr0 : (0 : ℚ) ≤ ((n % d : Nat) : ℚ) := by positivity
  have hfrac0 : (0 : ℚ) ≤ ((n % d : Nat) : ℚ) / d := by positivity
  have hfrac1 : ((n % d : Nat) : ℚ) / d < 1 := by rw [div_lt_one hdq]; exact hrq
  unfold roundHalfEven
  simp only
  by_cases hup : d < 2 * (n % d) ∨ (2 * (n % d) = d ∧ n / d % 2 = 1)
  · rw [if_pos hup]
    have h2 : d ≤ 2 * (n % d) := by rcases hup with h | ⟨h, -⟩ <;> omega
    have h2q : (d : ℚ) ≤ 2 * ((n % d : Nat) : ℚ) := by exact_mod_cast h2
    have hhalf : (1 : ℚ) / 2 ≤ ((n % d : Nat) : ℚ) / d := by
      rw [div_le_div_iff₀ (by norm_num) hdq]; linarith
    have hval : ((n / d + 1 : Nat) : ℚ) - (n : ℚ) / d = 1 - ((n % d : Nat) : ℚ) / d := by
      rw [hsplit]; push_cast; ring
    rw [hval, abs_of_nonneg (by linarith)]
    refine ⟨by linarith, by omega, le_refl _, ?_⟩
    intro heq
    have hfr : ((n % d : Nat) : ℚ) / d = 1 / 2 := by linarith
    rw [div_eq_div_iff (ne_of_gt hdq) (by norm_num)] at hfr
    have hnat : (n % d) * 2 = 1 * d := by exact_mod_cast hfr
    rcases hup with h | ⟨-, h⟩ <;> omega
  · rw [if_neg hup]
    have h2 : 2 * (n % d) ≤ d := by
      by_contra hlt; exact hup (Or.inl (by omega))
    have h2q : 2 * ((n % d : Nat) : ℚ) ≤ (d : ℚ) := by exact_mod_cast h2
    have hhalf : ((n % d : Nat) : ℚ) / d ≤ 1 / 2 := by
      rw [div_le_div_iff₀ hdq (by norm_num)]; linarith
    have hval : ((n / d : Nat) : ℚ) - (n : ℚ) / d = -(((n % d : Nat) : ℚ) / d) := by
      rw [hsplit]; ring
    rw [hval, abs_neg, abs_of_nonneg hfrac0]
    refine ⟨hhalf, le_refl _, by omega, ?_⟩
    intro heq
    rw [div_eq_div_iff (ne_of_gt hdq) (by norm_num)] at heq
    have hnat : (n % d) * 2 = 1 * d := by exact_mod_cast heq
    by_contra hodd
    exact hup (Or.inr ⟨by omega, by omega⟩)

/-- The function `roundNearestEven` returns a canonical binary64 value within half a unit
in the last place of the fraction, even on a tie, or an infinity when the
fraction reaches the overflow threshold `2^1024 - 2^970`. -/
theorem roundNearestEven_spec (neg : Bool) (num den : Nat) (hden : 0 < den) :
    (∃ m e, roundNearestEven neg num den = .fin neg m e ∧
        m < 2 ^ 53 ∧ -1074 ≤ e ∧ e ≤ 971 ∧ (2 ^ 52 ≤ m ∨ e = -1074) ∧
        |(m : ℚ) * (2 : ℚ) ^ e - (num : ℚ) / den| ≤ (2 : ℚ) ^ e / 2 ∧
        (|(m : ℚ) * (2 : ℚ) ^ e - (num : ℚ) / den| = (2 : ℚ) ^ e / 2 → m % 2 = 0)) ∨
      (roundNearestEven neg num den = .inf neg ∧
        (2 : ℚ) ^ (1024 : Int) - (2 : ℚ) ^ (970 : Int) ≤ (num : ℚ) / den) := by
  by_cases hnum : num = 0
  · left
    refine ⟨0, -1074, by simp [roundNearestEven, hnum], by norm_num, le_refl _, by norm_num,
      Or.inr rfl, ?_, fun _ => rfl⟩
    subst hnum
    simp only [Nat.cast_zero, zero_mul, zero_div, sub_zero, abs_zero]
    positivity
  have hn : 0 < num := Nat.pos_of_ne_zero hnum
  obtain ⟨hk1, hk2⟩ := binaryExponent_spec num den hn hden
  set k := binaryExponent num den with hk
  set x : ℚ := (num : ℚ) / den with hx
  set e : Int := max (k - 52) (-1074) with he
  have he1 : k - 52 ≤ e := le_max_left _ _
  have he2 : -1074 ≤ e := le_max_right _ _
  have he3 : e = k - 52 ∨ e = -1074 := by
    rcases le_total (k - 52) (-1074) with h | h
    · right; exact max_eq_right h
    · left; exact max_eq_left h
  have hpe : (0 : ℚ) < (2 : ℚ) ^ e := by positivity
  set N : Nat := num * 2 ^ (-e).toNat with hN
  set D : Nat := den * 2 ^ e.toNat with hD
  have hDpos : 0 < D := Nat.mul_pos hden (by positivity)
  have hDq : (0 : ℚ) < D := by exact_mod_cast hDpos
  have hND : (N : ℚ) / D = x / (2 : ℚ) ^ e := by
    have hs := zpow_toNat_split e
    rw [hs, hN, hD, hx]
    push_cast
    field_simp
  obtain ⟨hr1, hr2, hr3, hr4⟩ := roundHalfEven_spec N D hDpos
  set m := roundHalfEven N D with hm
  rw [hND] at hr1 hr4
  -- the significand is below `2^53`
  have hup : x / (2 : ℚ) ^ e < 2 ^ 53 := by
    rw [div_lt_iff₀ hpe]
    calc x < (2 : ℚ) ^ (k + 1) := hk2
      _ ≤ (2 : ℚ) ^ (53 + e) := zpow_le_zpow_right₀ (by norm_num) (by omega)
      _ = 2 ^ 53 * (2 : ℚ) ^ e := by
        rw [zpow_add₀ (by norm_num)]; norm_num
  have hq53 : N / D < 2 ^ 53 := by
    rw [Nat.div_lt_iff_lt_mul hDpos]
    have : (N : ℚ) < 2 ^ 53 * D := by
      rw [← hND, div_lt_iff₀ hDq] at hup; exact hup
    exact_mod_cast this
  have hm53 : m ≤ 2 ^ 53 := by omega
  -- in the normal range the significand is at least `2^52`
  have hlow : e = k - 52 → 2 ^ 52 ≤ m := by
    intro hek
    have h1 : (2 : ℚ) ^ 52 ≤ x / (2 : ℚ) ^ e := by
      rw [le_div_iff₀ hpe]
      calc (2 : ℚ) ^ 52 * (2 : ℚ) ^ e = (2 : ℚ) ^ (52 + e) := by
            rw [zpow_add₀ (by norm_num)]; norm_num
        _ = (2 : ℚ) ^ k := by rw [hek]; congr 1; ring
        _ ≤ x := hk1
    have h2 : 2 ^ 52 ≤ N / D := by
      rw [Nat.le_div_iff_mul_le hDpos]
      have : (2 : ℚ) ^ 52 * D ≤ N := by
        rw [← hND, le_div_iff₀ hDq] at h1; exact h1
      exact_mod_cast this
    omega
  -- the error of the rounded significand, scaled back
  have herr : (m : ℚ) * (2 : ℚ) ^ e - x = (2 : ℚ) ^ e * ((m : ℚ) - x / (2 : ℚ) ^ e) := by
    field_simp
  have habs : |(m : ℚ) * (2 : ℚ) ^ e - x| = (2 : ℚ) ^ e * |(m : ℚ) - x / (2 : ℚ) ^ e| := by
    rw [herr, abs_mul, abs_of_pos hpe]
  have hdef : roundNearestEven neg num den =
      if m = 2 ^ 53 then
        if e + 1 > 971 then .inf neg else .fin neg (2 ^ 52) (e + 1)
      else if e > 971 then .inf neg else .fin neg m e := by
    simp only [roundNearestEven, if_neg hnum]
  rw [hdef]
  by_cases hc : m = 2 ^ 53
  · rw [if_pos hc]
    have hval : ((2 ^ 52 : Nat) : ℚ) * (2 : ℚ) ^ (e + 1) = (m : ℚ) * (2 : ℚ) ^ e := by
      rw [hc, zpow_add₀ (by norm_num)]; push_cast; ring
    by_cases hov : e + 1 > 971
    · right
      rw [if_pos hov]
      refine ⟨rfl, ?_⟩
      have h1 : (2 : ℚ) ^ 53 - 1 / 2 ≤ x / (2 : ℚ) ^ e := by
        have := (abs_le.1 hr1).2
        rw [hc] at this
        push_cast at this
        linarith
      rw [le_div_iff₀ hpe] at h1
      have h2 : (2 : ℚ) ^ (971 : Int) ≤ (2 : ℚ) ^ e :=
        zpow_le_zpow_right₀ (by norm_num) (by omega)
      have h3 : (2 : ℚ) ^ (1024 : Int) - (2 : ℚ) ^ (970 : Int) =
          ((2 : ℚ) ^ 53 - 1 / 2) * (2 : ℚ) ^ (971 : Int) := by norm_num
      rw [h3]
      calc ((2 : ℚ) ^ 53 - 1 / 2) * (2 : ℚ) ^ (971 : Int)
          ≤ ((2 : ℚ) ^ 53 - 1 / 2) * (2 : ℚ) ^ e :=
            mul_le_mul_of_nonneg_left h2 (by norm_num)
        _ ≤ x := h1
    · left
      rw [if_neg hov]
      refine ⟨2 ^ 52, e + 1, rfl, by norm_num, by omega, by omega, Or.inl (le_refl _), ?_,
        fun _ => by norm_num⟩
      rw [hval, habs]
      have h2 : (2 : ℚ) ^ (e + 1) = (2 : ℚ) ^ e * 2 := by
        rw [zpow_add₀ (by norm_num)]; norm_num
      rw [h2]
      nlinarith [abs_nonneg ((m : ℚ) - x / (2 : ℚ) ^ e)]
  · rw [if_neg hc]
    by_cases hov : e > 971
    · right
      rw [if_pos hov]
      refine ⟨rfl, ?_⟩
      have hek : e = k - 52 := by rcases he3 with h | h <;> omega
      calc (2 : ℚ) ^ (1024 : Int) - (2 : ℚ) ^ (970 : Int) ≤ (2 : ℚ) ^ (1024 : Int) := by
            have : (0 : ℚ) < (2 : ℚ) ^ (970 : Int) := by positivity
            linarith
        _ ≤ (2 : ℚ) ^ k := zpow_le_zpow_right₀ (by norm_num) (by omega)
        _ ≤ x := hk1
    · left
      rw [if_neg hov]
      refine ⟨m, e, rfl, by omega, he2, by omega, ?_, ?_, ?_⟩
      · rcases he3 with h | h
        · exact Or.inl (hlow h)
        · exact Or.inr h
      · rw [habs]
        calc (2 : ℚ) ^ e * |(m : ℚ) - x / (2 : ℚ) ^ e| ≤ (2 : ℚ) ^ e * (1 / 2) :=
              mul_le_mul_of_nonneg_left hr1 hpe.le
          _ = (2 : ℚ) ^ e / 2 := by ring
      · intro htie
        rw [habs] at htie
        apply hr4
        have : (2 : ℚ) ^ e * |(m : ℚ) - x / (2 : ℚ) ^ e| = (2 : ℚ) ^ e * (1 / 2) := by
          rw [htie]; ring
        exact mul_left_cancel₀ (ne_of_gt hpe) this

/-- The Go constant `1e18` is exactly `10^18`. -/
theorem e18_eq : e18 = .fin false 7812500000000000 7 := by decide

/-- The product of two finite values is the rounding of their exact
product. -/
theorem mul_fin_fraction (s t : Bool) (m₁ m₂ : Nat) (e₁ e₂ : Int) :
    ∃ num den : Nat, 0 < den ∧
      (num : ℚ) / den = ((m₁ : ℚ) * (2 : ℚ) ^ e₁) * ((m₂ : ℚ) * (2 : ℚ) ^ e₂) ∧
      (Float64.fin s m₁ e₁).mul (.fin t m₂ e₂) = roundNearestEven (xor s t) num den := by
  refine ⟨m₁ * m₂ * 2 ^ (e₁ + e₂).toNat, 2 ^ (-(e₁ + e₂)).toNat, by positivity, ?_, rfl⟩
  have hs := zpow_toNat_split (e₁ + e₂)
  rw [zpow_add₀ (by norm_num)] at hs
  push_cast
  rw [mul_div_assoc, ← hs]
  ring

/-- The quotient of two finite values, the divisor not zero, is the rounding
of their exact quotient. -/
theorem div_fin_fraction (s t : Bool) (m₁ m₂ : Nat) (e₁ e₂ : Int) (hm : m₂ ≠ 0) :
    ∃ num den : Nat, 0 < den ∧
      (num : ℚ) / den = ((m₁ : ℚ) * (2 : ℚ) ^ e₁) / ((m₂ : ℚ) * (2 : ℚ) ^ e₂) ∧
      (Float64.fin s m₁ e₁).div (.fin t m₂ e₂) = roundNearestEven (xor s t) num den := by
  refine ⟨m₁ * 2 ^ (e₁ - e₂).toNat, m₂ * 2 ^ (e₂ - e₁).toNat,
    Nat.mul_pos (Nat.pos_of_ne_zero hm) (by positivity), ?_, by simp [Float64.div, hm]⟩
  have hs := zpow_toNat_split (e₁ - e₂)
  rw [zpow_sub₀ (by norm_num), neg_sub] at hs
  have hm' : (m₂ : ℚ) ≠ 0 := by exact_mod_cast hm
  have h2 : (2 : ℚ) ^ e₂ ≠ 0 := by positivity
  push_cast
  rw [mul_div_mul_comm, ← hs]
  field_simp

/-- The binary64 product `amount * 1e18` of a finite amount is the exact
product `amount * 10^18` rounded to nearest, ties to even: a canonical value
within half a unit in the last place, or an infinity on overflow. -/
theorem mul_e18_rounded (s : Bool) (m : Nat) (e : Int) :
    (∃ m' e', (Float64.fin s m e).mul e18 = .fin s m' e' ∧
        m' < 2 ^ 53 ∧ -1074 ≤ e' ∧ e' ≤ 971 ∧ (2 ^ 52 ≤ m' ∨ e' = -1074) ∧
        |(m' : ℚ) * (2 : ℚ) ^ e' - (m : ℚ) * (2 : ℚ) ^ e * 10 ^ 18| ≤ (2 : ℚ) ^ e' / 2) ∨
      ((Float64.fin s m e).mul e18 = .inf s ∧
        (2 : ℚ) ^ (1024 : Int) - (2 : ℚ) ^ (970 : Int) ≤ (m : ℚ) * (2 : ℚ) ^ e * 10 ^ 18) := by
  rw [e18_eq]
  obtain ⟨num, den, hden, hfrac, hmul⟩ := mul_fin_fraction s false m 7812500000000000 e 7
  have hval : ((m : ℚ) * (2 : ℚ) ^ e) * (((7812500000000000 : Nat) : ℚ) * (2 : ℚ) ^ (7 : Int)) =
      (m : ℚ) * (2 : ℚ) ^ e * 10 ^ 18 := by norm_num
  rw [hval] at hfrac
  rw [hmul, Bool.xor_false, ← hfrac]
  rcases roundNearestEven_spec s num den hden with ⟨m', e', h1, h2, h3, h4, h5, h6, -⟩ | h
  · exact Or.inl ⟨m', e', h1, h2, h3, h4, h5, h6⟩
  · exact Or.inr h

/-- Conversion of an integer below `2^53` in magnitude to binary64 is
exact. -/
theorem ofInt64_exact (i : Int) (h : i.natAbs < 2 ^ 53) :
    ∃ m e, Float64.ofInt64 i = .fin (decide (i < 0)) m e ∧
      (m : ℚ) * (2 : ℚ) ^ e = (i.natAbs : ℚ) := by
  unfold Float64.ofInt64
  set n := i.natAbs with hn
  by_cases h0 : n = 0
  · exact ⟨0, -1074, by simp [roundNearestEven, h0], by simp [h0]⟩
  have hpos : 0 < n := Nat.pos_of_ne_zero h0
  obtain ⟨hk1, hk2⟩ := binaryExponent_spec n 1 hpos Nat.one_pos
  set k := binaryExponent n 1 with hk
  simp only [Nat.cast_one, div_one] at hk1 hk2
  have hnq : (n : ℚ) < (2 : ℚ) ^ (53 : Int) := by
    have : ((n : Nat) : ℚ) < ((2 ^ 53 : Nat) : ℚ) := by exact_mod_cast h
    rw [zpow_ofNat]; exact_mod_cast this
  have hk53 : k < 53 :=
    (zpow_lt_zpow_iff_right₀ (by norm_num : (1 : ℚ) < 2)).1 (lt_of_le_of_lt hk1 hnq)
  have hk0 : 0 ≤ k := by
    have h1 : (2 : ℚ) ^ (0 : Int) < (2 : ℚ) ^ (k + 1) := by
      have : (1 : ℚ) ≤ n := by exact_mod_cast hpos
      rw [zpow_zero]; linarith
    have := (zpow_lt_zpow_iff_right₀ (by norm_num : (1 : ℚ) < 2)).1 h1
    omega
  have he : max (k - 52) (-1074) = k - 52 := max_eq_left (by omega)
  have ht1 : (k - 52).toNat = 0 := by omega
  obtain ⟨j, hj⟩ : ∃ j : Nat, (-(k - 52)).toNat = j ∧ (j : Int) = 52 - k :=
    ⟨(-(k - 52)).toNat, rfl, by omega⟩
  have hround : roundHalfEven (n * 2 ^ j) 1 = n * 2 ^ j := by
    simp [roundHalfEven, Nat.mod_one]
  have hval : ((n * 2 ^ j : Nat) : ℚ) * (2 : ℚ) ^ (k - 52) = (n : ℚ) := by
    have hkj : k - 52 = -(j : Int) := by omega
    rw [hkj, zpow_neg, zpow_natCast]
    push_cast
    field_simp
  have hlt : n * 2 ^ j < 2 ^ 53 := by
    have h2 : (n : ℚ) * (2 : ℚ) ^ (j : Int) < (2 : ℚ) ^ (k + 1) * (2 : ℚ) ^ (j : Int) :=
      mul_lt_mul_of_pos_right hk2 (by positivity)
    rw [← zpow_add₀ (by norm_num), show k + 1 + (j : Int) = 53 by omega] at h2
    rw [zpow_natCast, zpow_ofNat] at h2
    exact_mod_cast h2
  refine ⟨n * 2 ^ j, k - 52, ?_, hval⟩
  simp only [roundNearestEven, if_neg h0, ← hk, he, ht1, hj.1, pow_zero, mul_one, hround,
    if_neg (ne_of_lt hlt)]
  rw [if_neg (by omega)]

/-- For a `wei` below `2^53` in magnitude, `FromWei(wei)` is the exact
quotient `wei / 10^18` rounded to nearest, ties to even. -/
theorem FromWei_rounded (wei : Int) (h : wei.natAbs < 2 ^ 53) :
    ∃ m e, FromWei wei = .fin (decide (wei < 0)) m e ∧
      m < 2 ^ 53 ∧ -1074 ≤ e ∧ e ≤ 971 ∧ (2 ^ 52 ≤ m ∨ e = -1074) ∧
      |(m : ℚ) * (2 : ℚ) ^ e - (wei.natAbs : ℚ) / 10 ^ 18| ≤ (2 : ℚ) ^ e / 2 := by
  obtain ⟨m₁, e₁, hconv, hexact⟩ := ofInt64_exact wei h
  obtain ⟨num, den, hden, hfrac, hdiv⟩ :=
    div_fin_fraction (decide (wei < 0)) false m₁ 7812500000000000 e₁ 7 (by norm_num)
  have hval : ((m₁ : ℚ) * (2 : ℚ) ^ e₁) /
      (((7812500000000000 : Nat) : ℚ) * (2 : ℚ) ^ (7 : Int)) = (wei.natAbs : ℚ) / 10 ^ 18 := by
    rw [hexact]; norm_num
  rw [hval] at hfrac
  unfold FromWei
  rw [hconv, e18_eq, hdiv, Bool.xor_false, ← hfrac]
  rcases roundNearestEven_spec (decide (wei < 0)) num den hden with
    ⟨m, e, h1, h2, h3, h4, h5, h6, -⟩ | ⟨-, hbig⟩
  · exact ⟨m, e, h1, h2, h3, h4, h5, h6⟩
  · exfalso
    rw [hfrac] at hbig
    have hsmall : (wei.natAbs : ℚ) / 10 ^ 18 < (2 : ℚ) ^ (53 : Int) := by
      have h1 : (wei.natAbs : ℚ) < ((2 ^ 53 : Nat) : ℚ) := by exact_mod_cast h
      have h2 : (wei.natAbs : ℚ) / 10 ^ 18 ≤ (wei.natAbs : ℚ) :=
        div_le_self (by positivity) (by norm_num)
      have h3 : ((2 ^ 53 : Nat) : ℚ) = (2 : ℚ) ^ (53 : Int) := by norm_num
      linarith
    have hgap : (2 : ℚ) ^ (53 : Int) ≤ (2 : ℚ) ^ (1024 : Int) - (2 : ℚ) ^ (970 : Int) := by
      norm_num
    linarith

theorem wrapInt64_lt (i : Int) : wrapInt64 i < 2 ^ 63 := by
  have h := Int.emod_lt_of_pos (i + 2 ^ 63) (show (0 : Int) < 2 ^ 64 by norm_num)
  unfold wrapInt64
  omega

theorem wrapInt64_ge (i : Int) : -2 ^ 63 ≤ wrapInt64 i := by
  have h := Int.emod_nonneg (i + 2 ^ 63) (show (2 : Int) ^ 64 ≠ 0 by norm_num)
  unfold wrapInt64
  omega

/-- The result of `int64(x)` is always an `int64`. -/
theorem toInt64_range (impl : Float64 → Int) (x : Float64) :
    -2 ^ 63 ≤ x.toInt64 impl ∧ x.toInt64 impl < 2 ^ 63 := by
  unfold Float64.toInt64
  split
  · split
    · assumption
    · exact ⟨wrapInt64_ge _, wrapInt64_lt _⟩
  · exact ⟨wrapInt64_ge _, wrapInt64_lt _⟩

/-- The integer part of `m * 2^e`. -/
theorem floor_scaled (m : Nat) (e : Int) :
    ⌊(m : ℚ) * (2 : ℚ) ^ e⌋ =
      ((if 0 ≤ e then m * 2 ^ e.toNat else m / 2 ^ (-e).toNat : Nat) : Int) := by
  by_cases he : 0 ≤ e
  · rw [if_pos he]
    obtain ⟨k, rfl⟩ := Int.eq_ofNat_of_zero_le he
    have : (m : ℚ) * (2 : ℚ) ^ (k : Int) = ((m * 2 ^ k : Nat) : ℚ) := by
      push_cast; rw [zpow_natCast]
    rw [this, Int.floor_natCast]
    simp
  · rw [if_neg he]
    obtain ⟨k, hk⟩ : ∃ k : Nat, e = -(k : Int) := ⟨(-e).toNat, by omega⟩
    subst hk
    have : (m : ℚ) * (2 : ℚ) ^ (-(k : Int)) = (m : ℚ) / ((2 ^ k : Nat) : ℚ) := by
      rw [zpow_neg, zpow_natCast, div_eq_mul_inv]; push_cast; rfl
    rw [this, Rat.floor_natCast_div_natCast]
    simp

/-- The function `Float64.trunc` discards the fraction of the value denoted. -/
theorem trunc_eq_truncTowardZero (x : Float64) (q : ℚ) (h : x.toRat = some q) :
    x.trunc = some (truncTowardZero q) := by
  cases x with
  | nan => cases h
  | inf s => cases h
  | fin neg m e =>
    simp only [Float64.toRat, Option.some.injEq] at h
    subst h
    have hfl := floor_scaled m e
    have hnn : (0 : ℚ) ≤ (m : ℚ) * (2 : ℚ) ^ e := by positivity
    simp only [Float64.trunc, Option.some.injEq]
    cases neg with
    | false =>
      simp only [Bool.false_eq_true, if_false, one_mul, truncTowardZero, if_pos hnn, hfl]
    | true =>
      rw [show (if true = true then (-1 : ℚ) else 1) * (m : ℚ) * (2 : ℚ) ^ e =
        -((m : ℚ) * (2 : ℚ) ^ e) by simp]
      simp only [if_true, truncTowardZero]
      by_cases h0 : (0 : ℚ) ≤ -((m : ℚ) * (2 : ℚ) ^ e)
      · have hz : (m : ℚ) * (2 : ℚ) ^ e = 0 := le_antisymm (by linarith) hnn
        rw [if_pos h0]
        rw [hz] at hfl
        simp only [Int.floor_zero] at hfl
        rw [hz, ← hfl]
        simp
      · rw [if_neg h0, Int.ceil_neg, hfl]

/-- C9 fails for the amount `10`: the product `10 * 1e18` is exactly `10^19`,
which no `int64` holds, so `ToWei(10)` is not that product rounded toward
zero. -/
theorem ToWei_ten_out_of_range :
    Float64.ten.toRat = some 10 ∧
      (Float64.ten.mul e18).toRat = some (10 * 10 ^ 18) ∧
      truncTowardZero (10 * 10 ^ 18) = 10 ^ 19 ∧
      (∀ impl, ToWei impl Float64.ten ≠ 10 ^ 19) ∧
      ToWei (fun _ => -2 ^ 63) Float64.ten = -9223372036854775808 := by
  have hmul : Float64.ten.mul e18 = .fin false 4882812500000000 11 := by decide
  refine ⟨?_, ?_, ?_, ?_, by decide⟩
  · simp only [Float64.ten, Float64.toRat]; norm_num
  · rw [hmul]; simp only [Float64.toRat]; norm_num
  · have : (10 * 10 ^ 18 : ℚ) = ((10 ^ 19 : Int) : ℚ) := by norm_num
    rw [truncTowardZero, if_pos (by norm_num), this, Int.floor_intCast]
  · intro impl h
    have hr := (toInt64_range impl (Float64.ten.mul e18)).2
    unfold ToWei at h
    rw [h] at hr
    norm_num at hr

/-- C9, amended: when the binary64 product `amount * 1e18` is finite and its
truncation toward zero fits `int64`, `ToWei(amount)` is that truncation;
`FromWei(wei)` is the binary64 quotient of `float64(wei)` by `1e18`; and
`ToWei(1.5) = 1500000000000000000`, `FromWei(1000000000000000000) = 1.0`. -/
theorem ToWei_FromWei_spec :
    (∀ (impl : Float64 → Int) (amount : Float64) (q : ℚ),
        (amount.mul e18).toRat = some q →
        -2 ^ 63 ≤ truncTowardZero q → truncTowardZero q < 2 ^ 63 →
        ToWei impl amount = truncTowardZero q) ∧
      (∀ wei : Int, FromWei wei = (Float64.ofInt64 wei).div e18) ∧
      e18.toRat = some (10 ^ 18) ∧
      (∀ impl, ToWei impl Float64.onePointFive = 1500000000000000000) ∧
      FromWei 1000000000000000000 = Float64.one := by
  refine ⟨?_, fun _ => rfl, ?_, ?_, by decide⟩
  · intro impl amount q hq hlo hhi
    have ht := trunc_eq_truncTowardZero _ q hq
    simp only [ToWei, Float64.toInt64, ht, hlo, hhi, and_self, if_true]
  · rw [e18_eq]; simp only [Float64.toRat]; norm_num
  · intro impl
    have hmul : Float64.onePointFive.mul e18 = .fin false 5859375000000000 8 := by decide
    have htr : (Float64.fin false 5859375000000000 8).trunc = some 1500000000000000000 := by
      decide
    simp only [ToWei, hmul, Float64.toInt64, htr]
    norm_num

/-- Worked example for C9: `ToWei(1.5)`. -/
theorem ToWei_FromWei_spec_witness :
    (Float64.onePointFive.mul e18).toRat = some 1500000000000000000 ∧
      ToWei (fun _ => 0) Float64.onePointFive = truncTowardZero 1500000000000000000 := by
  have hq : (Float64.onePointFive.mul e18).toRat = some 1500000000000000000 := by
    have hmul : Float64.onePointFive.mul e18 = .fin false 5859375000000000 8 := by decide
    rw [hmul]; simp only [Float64.toRat]; norm_num
  have ht : truncTowardZero 1500000000000000000 = 1500000000000000000 := by
    have : (1500000000000000000 : ℚ) = ((1500000000000000000 : Int) : ℚ) := by norm_num
    rw [truncTowardZero, if_pos (by norm_num), this, Int.floor_intCast]
  exact ⟨hq, ToWei_FromWei_spec.1 (fun _ => 0) Float64.onePointFive _ hq
    (by rw [ht]; norm_num) (by rw [ht]; norm_num)⟩

end StratSDK
